import Mathlib

/-!
Verification of the TNI seed harvester processing pipeline
(`process-harvest.py`): a shallow embedding of the validator,
deduplicator, merge engine, coverage calculator and database store,
together with theorems settling the specified properties.

Conventions of the embedding:
* a raw CSV file is a `List (List String)` of rows of fields;
* a seed record (Python dict `{'seed': ..., 'proposals': [...]}`) is a
  pair `String × List String`;
* the Python `dict` mapping seed codes to proposal lists is an
  association list in insertion order, with first-match lookup and
  in-place overwrite, exactly as CPython dicts behave;
* Python `set`/`frozenset` become `Finset`;
* floats become `ℚ` (the arithmetic in the source is exact on the
  values the claims mention);
* the filesystem is an explicit `FS` record threaded through the
  pipeline, and mutations are recorded in an event trace.
-/

/-- A seed record: seed code together with its three proposal names.
Mirrors the dicts `{'seed': ..., 'proposals': [...]}` built by `read_csv`. -/
abbrev Entry := String × List String

/-- An insertion-ordered association list standing for a Python dict
from seed codes to proposal lists. -/
abbrev SeedMap := List Entry

/-- Model of Python `str.strip` (leading/trailing whitespace removal),
written by structural recursion on the character list so that it
evaluates inside the kernel. -/
def pystrip (s : String) : String :=
  ⟨(((s.data.dropWhile Char.isWhitespace).reverse.dropWhile
      Char.isWhitespace).reverse)⟩

/-- Model of Python `str.isalnum`: nonempty and every character
alphanumeric. -/
def pyIsalnum (s : String) : Bool :=
  !s.isEmpty && s.toList.all Char.isAlphanum

/-- The body of the `read_csv` loop: a row with at least 4 fields is
appended as a record (first four fields stripped); a shorter row is
dropped without any accounting. -/
def csvRowStep (acc : List Entry) (row : List String) : List Entry :=
  match row with
  | s :: p1 :: p2 :: p3 :: _ =>
    acc ++ [(pystrip s, [pystrip p1, pystrip p2, pystrip p3])]
  | _ => acc

/-- `read_csv`: skips the first row unconditionally (the header), then
folds `csvRowStep` over the remaining rows. -/
def read_csv : List (List String) → List Entry
  | [] => []
  | _header :: rest => rest.foldl csvRowStep []

/-- The `removed` statistics dict of `clean_seeds`. -/
structure RemovalStats where
  unknown : Nat
  invalid : Nat
  duplicates : Nat
deriving DecidableEq, Repr

/-- The loop body of `clean_seeds`, with the accumulated state
(`seen_seeds`, `clean`, the three counters) made explicit.  The order
of the three checks is exactly that of the source: the UNKNOWN-sentinel
check, then the seed-format check, then the intra-batch duplicate
check. -/
def cleanLoop (seen : List String) (clean : List Entry)
    (u i d : Nat) : List Entry → List Entry × RemovalStats
  | [] => (clean, ⟨u, i, d⟩)
  | e :: rest =>
    if "UNKNOWN" ∈ e.2 then
      cleanLoop seen clean (u + 1) i d rest
    else if e.1.length != 5 || !(pyIsalnum e.1) then
      cleanLoop seen clean u (i + 1) d rest
    else if e.1 ∈ seen then
      cleanLoop seen clean u i (d + 1) rest
    else
      cleanLoop (seen ++ [e.1]) (clean ++ [e]) u i d rest

/-- `clean_seeds`: validate and intra-batch deduplicate a raw batch,
returning the clean records and the removal statistics. -/
def clean_seeds (raw : List Entry) : List Entry × RemovalStats :=
  cleanLoop [] [] 0 0 0 raw

/-- Key membership in the seed map (`seed in seed_map`). -/
def hasKey (m : SeedMap) (k : String) : Bool :=
  m.any (fun e => e.1 == k)

/-- First-match lookup in the seed map (`seed_map[seed]`). -/
def lookupSeed (k : String) : SeedMap → Option (List String)
  | [] => none
  | e :: rest => if e.1 == k then some e.2 else lookupSeed k rest

/-- One assignment `d[k] = v` on a Python dict modelled as an ordered
association list: overwrite in place if the key exists, else append. -/
def dictInsert (m : SeedMap) (k : String) (v : List String) : SeedMap :=
  if hasKey m k then
    m.map (fun e => if e.1 == k then (k, v) else e)
  else
    m ++ [(k, v)]

/-- The dict comprehension `{e['seed']: e['proposals'] for e in seeds}`
of `merge_seeds`. -/
def buildMap (seeds : List Entry) : SeedMap :=
  seeds.foldl (fun m e => dictInsert m e.1 e.2) []

/-- The merge loop of `merge_seeds`: walk the new records, inserting a
record whose seed code is not yet a key (counting it new) and discarding
a record whose seed code is already a key (counting it duplicate). -/
def mergeLoop (m : SeedMap) (n d : Nat) : List Entry → SeedMap × Nat × Nat
  | [] => (m, n, d)
  | e :: rest =>
    if hasKey m e.1 then
      mergeLoop m n (d + 1) rest
    else
      mergeLoop (m ++ [(e.1, e.2)]) (n + 1) d rest

/-- `merge_seeds`: build the working map from the existing seeds list
and merge the new records into it. -/
def merge_seeds (existing new : List Entry) : SeedMap × Nat × Nat :=
  mergeLoop (buildMap existing) 0 0 new

/-- The fixed catalog `ALL_PROPOSALS` of the 15 proposal names. -/
def ALL_PROPOSALS : List String :=
  ["Cabler's Union (Base)",
   "Fusion Plant",
   "Lean Administration",
   "Legal Retaliation",
   "Lobby against Tenabolt",
   "NetOps Research",
   "Overvoltage Directive",
   "PADU",
   "Poems DB",
   "Power Management Research",
   "Refurbhut Investment",
   "Remote Backups",
   "Scanning Exploit",
   "Second Monitor",
   "Undervoltage Directive"]

/-- `TOTAL_COMBINATIONS = C(15,3) = 455`. -/
def TOTAL_COMBINATIONS : Nat := 455

/-- `calculate_combinations`: the set of `frozenset(proposals)` over the
values of the seed map. -/
def calculate_combinations (seed_map : SeedMap) : Finset (Finset String) :=
  ((seed_map.map (fun e => e.2.toFinset)).toFinset)

/-- The universe `all_possible` built by `get_missing_combinations`:
every 3-combination of `ALL_PROPOSALS`, as a frozenset. -/
def all_possible_combinations : Finset (Finset String) :=
  ((ALL_PROPOSALS.sublistsLen 3).map List.toFinset).toFinset

/-- `get_missing_combinations`: the universe minus the found set.  (The
source additionally converts the result to a sorted list of sorted
tuples for display; the content is the set difference.) -/
def get_missing_combinations (found : Finset (Finset String)) :
    Finset (Finset String) :=
  all_possible_combinations \ found

/-- `len(found_combos)` as reported by the pipeline and stored in the
database metadata. -/
def unique_combinations_found (seed_map : SeedMap) : Nat :=
  (calculate_combinations seed_map).card

/-- `coverage = 100 * len(found_combos) / TOTAL_COMBINATIONS`. -/
def coverage_percent (seed_map : SeedMap) : ℚ :=
  100 * (unique_combinations_found seed_map : ℚ) / (TOTAL_COMBINATIONS : ℚ)

/-- Model of Python `round(x, 4)` (ties behave differently on floats,
but no claim touches a tie). -/
def pyRound4 (q : ℚ) : ℚ := ((round (q * 10000) : ℤ) : ℚ) / 10000

/-- `sorted(seed_map.items())`: the entries in ascending key order (the
database invariant keeps keys distinct, so key order is the sort
order). -/
def sortEntries (seed_map : SeedMap) : List Entry :=
  seed_map.insertionSort (fun a b => a.1 ≤ b.1)

/-- The metadata block of the merged database.  The `created`/`updated`
timestamps and the embedded proposal catalog are not modelled: no claim
mentions them. -/
structure Meta where
  total_seeds : Nat
  combinations_found : Nat
  total_combinations : Nat
  coverage_percent : ℚ
deriving DecidableEq, Repr

/-- The merged seed database (`merged-seeds.json`). -/
structure Database where
  meta : Meta
  seeds : List Entry
deriving DecidableEq, Repr

/-- `load_merged_database`: return the file content if the file exists,
else a fresh empty database. -/
def load_merged_database (file : Option Database) : Database :=
  match file with
  | none =>
    { meta := { total_seeds := 0, combinations_found := 0,
                total_combinations := TOTAL_COMBINATIONS,
                coverage_percent := 0 },
      seeds := [] }
  | some db => db

/-- `save_merged_database`: recompute the coverage statistics from the
seed map alone and build the database document with the seeds in sorted
order.  The function receives only the seed map, so no prior metadata
can be copied. -/
def save_merged_database (seed_map : SeedMap) : Database :=
  let found := calculate_combinations seed_map
  let coverage : ℚ := 100 * (found.card : ℚ) / (TOTAL_COMBINATIONS : ℚ)
  let seeds_list := sortEntries seed_map
  { meta := { total_seeds := seeds_list.length,
              combinations_found := found.card,
              total_combinations := TOTAL_COMBINATIONS,
              coverage_percent := pyRound4 coverage },
    seeds := seeds_list }

/-- The filesystem state the pipeline touches: the raw CSV in the
output directory, the merged database file, and the families of
timestamped artifact files. -/
structure FS where
  seedLogCsv : Option (List (List String))
  mergedJson : Option Database
  cleanSnapshots : List (String × List Entry)
  backups : List (String × Database)
  frontendData : Option (List Entry)
  archivedCsvs : List (String × List (List String))
deriving DecidableEq, Repr

/-- A filesystem mutation performed by the write stage, in order. -/
inductive Event where
  | savedClean (clean : List Entry)
  | wroteBackup (previous : Database)
  | savedMerged (db : Database)
  | updatedFrontend
  | archivedCsv
  | clearedOutput
deriving DecidableEq, Repr

/-- The figures the pipeline reports (computed before the write stage,
printed by both the dry and the mutating paths). -/
structure Report where
  rawCount : Nat
  cleanCount : Nat
  removed : RemovalStats
  newCount : Nat
  duplicateCount : Nat
  totalSeeds : Nat
  combinationsFound : Nat
  coveragePercent : ℚ
  missingCount : Nat
deriving DecidableEq, Repr

/-- `save_clean_json` as a filesystem transformer: write the timestamped
clean snapshot. -/
def save_clean_json_fs (clean : List Entry) (ts : String) (fs : FS) : FS :=
  { fs with cleanSnapshots := fs.cleanSnapshots ++ [(ts, clean)] }

/-- `backup_merged_database` as a filesystem transformer: if the merged
database file exists, write a timestamped copy of its exact content and
return the backed-up content; else do nothing and return `none`. -/
def backup_merged_database_fs (ts : String) (fs : FS) : FS × Option Database :=
  match fs.mergedJson with
  | none => (fs, none)
  | some db => ({ fs with backups := fs.backups ++ [(ts, db)] }, some db)

/-- `save_merged_database` as a filesystem transformer: whole-file
replacement of the merged database. -/
def save_merged_database_fs (seed_map : SeedMap) (fs : FS) : FS :=
  { fs with mergedJson := some (save_merged_database seed_map) }

/-- `update_frontend` as a filesystem transformer: re-embed the sorted
seed list (the markup around the data region is not modelled). -/
def update_frontend_fs (seed_map : SeedMap) (fs : FS) : FS :=
  { fs with frontendData := some (sortEntries seed_map) }

/-- `archive_csv` as a filesystem transformer: copy the raw CSV to a
timestamped archive if it exists. -/
def archive_csv_fs (ts : String) (fs : FS) : FS :=
  match fs.seedLogCsv with
  | none => fs
  | some rows => { fs with archivedCsvs := fs.archivedCsvs ++ [(ts, rows)] }

/-- `clear_output_directory` as a filesystem transformer: delete the
files in the output directory. -/
def clear_output_directory_fs (fs : FS) : FS :=
  { fs with seedLogCsv := none }

/-- `run_pipeline`: the full pipeline over the modelled filesystem.
Returns the final filesystem, the ordered trace of mutation events, and
the report (`none` when the run aborts before the merge stage: missing
CSV, empty CSV, or an empty batch after cleaning).  All computation
happens before the `dry_run` branch, exactly as in the source. -/
def run_pipeline (dry_run : Bool) (ts : String) (fs : FS) :
    FS × List Event × Option Report :=
  match fs.seedLogCsv with
  | none => (fs, [], none)
  | some rows =>
    let raw := read_csv rows
    if raw.length = 0 then (fs, [], none)
    else
      let cleaned := clean_seeds raw
      let clean := cleaned.1
      let removed := cleaned.2
      if clean.length = 0 then (fs, [], none)
      else
        let existing := load_merged_database fs.mergedJson
        let merged := merge_seeds existing.seeds clean
        let seed_map := merged.1
        let new_count := merged.2.1
        let merge_dupes := merged.2.2
        let found := calculate_combinations seed_map
        let coverage : ℚ := 100 * (found.card : ℚ) / (TOTAL_COMBINATIONS : ℚ)
        let missing := get_missing_combinations found
        let report : Report :=
          { rawCount := raw.length, cleanCount := clean.length,
            removed := removed, newCount := new_count,
            duplicateCount := merge_dupes, totalSeeds := seed_map.length,
            combinationsFound := found.card, coveragePercent := coverage,
            missingCount := missing.card }
        if dry_run then (fs, [], some report)
        else
          let fs1 := save_clean_json_fs clean ts fs
          let backed := backup_merged_database_fs ts fs1
          let fs2 := backed.1
          let backupEvents :=
            match backed.2 with
            | none => []
            | some db => [Event.wroteBackup db]
          let fs3 := save_merged_database_fs seed_map fs2
          let fs4 := update_frontend_fs seed_map fs3
          let fs5 := archive_csv_fs ts fs4
          let fs6 := clear_output_directory_fs fs5
          (fs6,
           [Event.savedClean clean] ++ backupEvents ++
             [Event.savedMerged (save_merged_database seed_map),
              Event.updatedFrontend, Event.archivedCsv, Event.clearedOutput],
           some report)

/-! ## Helper lemmas -/

/-- Key membership in the map is membership in the key list. -/
lemma hasKey_iff_mem (m : SeedMap) (k : String) :
    hasKey m k = true ↔ k ∈ m.map Prod.fst := by
  simp [hasKey, List.any_eq_true]

/-- `hasKey` distributes over append. -/
lemma hasKey_append (m l : SeedMap) (k : String) :
    hasKey (m ++ l) k = (hasKey m k || hasKey l k) :=
  List.any_append

/-- Looking up a key that the left part already holds ignores the
appended entries. -/
lemma lookupSeed_append_left (m l : SeedMap) (k : String)
    (h : hasKey m k = true) :
    lookupSeed k (m ++ l) = lookupSeed k m := by
  induction m with
  | nil => simp [hasKey] at h
  | cons e rest ih =>
    by_cases he : (e.1 == k) = true
    · simp [lookupSeed, he]
    · have h' : hasKey rest k = true := by
        have hx := h
        rw [show hasKey (e :: rest) k = ((e.1 == k) || hasKey rest k) from rfl,
          Bool.or_eq_true] at hx
        exact hx.resolve_left he
      simp [lookupSeed, he, ih h']

/-- The merge loop never changes the value of a key the map already
holds (first write wins). -/
lemma mergeLoop_lookup_existing (B : List Entry) (m : SeedMap) (n d : Nat)
    (k : String) (h : hasKey m k = true) :
    lookupSeed k (mergeLoop m n d B).1 = lookupSeed k m := by
  induction B generalizing m n d with
  | nil => rfl
  | cons e rest ih =>
    by_cases he : hasKey m e.1 = true
    · simp only [mergeLoop, if_pos he]
      exact ih m n (d + 1) h
    · simp only [mergeLoop, if_neg he]
      have hk : hasKey (m ++ [(e.1, e.2)]) k = true := by
        rw [hasKey_append, h, Bool.true_or]
      rw [ih (m ++ [(e.1, e.2)]) (n + 1) d hk]
      exact lookupSeed_append_left m _ k h

/-- The keys of the merged map are the union of the keys of the map and
of the batch. -/
lemma mergeLoop_keys (B : List Entry) (m : SeedMap) (n d : Nat) :
    ((mergeLoop m n d B).1.map Prod.fst).toFinset =
      (m.map Prod.fst).toFinset ∪ (B.map Prod.fst).toFinset := by
  induction B generalizing m n d with
  | nil => simp [mergeLoop]
  | cons e rest ih =>
    by_cases he : hasKey m e.1 = true
    · simp only [mergeLoop, if_pos he]
      rw [ih]
      have hmem : e.1 ∈ m.map Prod.fst := (hasKey_iff_mem m e.1).1 he
      ext x
      simp only [Finset.mem_union, List.mem_toFinset, List.map_cons,
        List.mem_cons]
      constructor
      · rintro (hx | hx)
        · exact Or.inl hx
        · exact Or.inr (Or.inr hx)
      · rintro (hx | hx | hx)
        · exact Or.inl hx
        · exact Or.inl (hx ▸ hmem)
        · exact Or.inr hx
    · simp only [mergeLoop, if_neg he]
      rw [ih]
      ext x
      simp only [Finset.mem_union, List.mem_toFinset, List.map_append,
        List.map_cons, List.mem_append, List.mem_cons, List.mem_singleton,
        List.map_singleton]
      tauto

/-- A key present in the map stays present through the merge loop. -/
lemma mergeLoop_grows (B : List Entry) (m : SeedMap) (n d : Nat)
    (k : String) (h : hasKey m k = true) :
    hasKey (mergeLoop m n d B).1 k = true := by
  rw [hasKey_iff_mem, ← List.mem_toFinset, mergeLoop_keys]
  rw [hasKey_iff_mem, ← List.mem_toFinset] at h
  exact Finset.mem_union_left _ h

/-- Every seed code of the batch is a key of the merged map. -/
lemma mergeLoop_contains_batch (B : List Entry) (m : SeedMap) (n d : Nat) :
    ∀ e ∈ B, hasKey (mergeLoop m n d B).1 e.1 = true := by
  intro e he
  rw [hasKey_iff_mem, ← List.mem_toFinset, mergeLoop_keys]
  refine Finset.mem_union_right _ ?_
  rw [List.mem_toFinset, List.mem_map]
  exact ⟨e, he, rfl⟩

/-- Merging a batch every record of which is already keyed leaves the
map untouched, adds nothing, and counts every record as a duplicate. -/
lemma mergeLoop_all_dup (B : List Entry) (m : SeedMap) (n d : Nat)
    (h : ∀ e ∈ B, hasKey m e.1 = true) :
    mergeLoop m n d B = (m, n, d + B.length) := by
  induction B generalizing d with
  | nil => simp [mergeLoop]
  | cons e rest ih =>
    simp only [mergeLoop, if_pos (h e (List.mem_cons_self e rest))]
    rw [ih (d + 1) (fun x hx => h x (List.mem_cons_of_mem e hx))]
    have : d + 1 + rest.length = d + (e :: rest).length := by
      simp [List.length_cons]; omega
    rw [this]

/-- A singleton map has exactly its one key. -/
lemma hasKey_singleton (a : String) (b : List String) (k : String) :
    hasKey [(a, b)] k = (a == k) := by
  simp [hasKey]

/-- The counters of the merge loop, for a batch with pairwise distinct
seed codes: everything already keyed is a duplicate, the rest is new. -/
lemma mergeLoop_counts (B : List Entry) (m : SeedMap) (n d : Nat)
    (hB : (B.map Prod.fst).Nodup) :
    (mergeLoop m n d B).2.1 =
      n + (B.filter (fun e => !(hasKey m e.1))).length ∧
    (mergeLoop m n d B).2.2 =
      d + (B.filter (fun e => hasKey m e.1)).length := by
  induction B generalizing m n d with
  | nil => simp [mergeLoop]
  | cons e rest ih =>
    rw [List.map_cons, List.nodup_cons] at hB
    obtain ⟨hnotin, hnd⟩ := hB
    by_cases he : hasKey m e.1 = true
    · simp only [mergeLoop, if_pos he]
      obtain ⟨h1, h2⟩ := ih m n (d + 1) hnd
      refine ⟨?_, ?_⟩
      · rw [h1]
        congr 2
        simp [List.filter_cons, he]
      · rw [h2]
        simp [List.filter_cons, he]
        omega
    · simp only [mergeLoop, if_neg he]
      obtain ⟨h1, h2⟩ := ih (m ++ [(e.1, e.2)]) (n + 1) d hnd
      have hfeq : ∀ p ∈ rest, hasKey (m ++ [(e.1, e.2)]) p.1 = hasKey m p.1 := by
        intro p hp
        rw [hasKey_append, hasKey_singleton]
        have hne : (e.1 == p.1) = false := by
          rw [beq_eq_false_iff_ne]
          intro hcontra
          exact hnotin (hcontra ▸ List.mem_map_of_mem Prod.fst hp)
        rw [hne, Bool.or_false]
      have hef : hasKey m e.1 = false := by
        cases hcase : hasKey m e.1 with
        | false => rfl
        | true => exact absurd hcase he
      refine ⟨?_, ?_⟩
      · rw [h1, List.filter_congr (fun p hp => by rw [hfeq p hp])]
        simp [List.filter_cons, hef]
        omega
      · rw [h2, List.filter_congr (fun p hp => by rw [hfeq p hp])]
        simp [List.filter_cons, hef]

/-- The key list after one dict assignment: unchanged when the key was
present (in-place overwrite), extended by the key otherwise. -/
lemma dictInsert_keys (m : SeedMap) (k : String) (v : List String) :
    (dictInsert m k v).map Prod.fst =
      if hasKey m k then m.map Prod.fst else m.map Prod.fst ++ [k] := by
  unfold dictInsert
  by_cases h : hasKey m k = true
  · rw [if_pos h, if_pos h, List.map_map]
    refine List.map_congr_left ?_
    intro e _
    by_cases he : (e.1 == k) = true
    · simp [Function.comp, he, (beq_iff_eq.1 he).symm]
    · simp [Function.comp, he]
  · rw [if_neg h, if_neg h, List.map_append]
    rfl

/-- One dict assignment preserves distinctness of the keys. -/
lemma dictInsert_nodup (m : SeedMap) (k : String) (v : List String)
    (h : (m.map Prod.fst).Nodup) :
    ((dictInsert m k v).map Prod.fst).Nodup := by
  rw [dictInsert_keys]
  by_cases hk : hasKey m k = true
  · rw [if_pos hk]
    exact h
  · rw [if_neg hk]
    rw [List.nodup_append]
    refine ⟨h, List.nodup_singleton k, ?_⟩
    intro x hx hx1
    rw [List.mem_singleton] at hx1
    exact hk (hx1 ▸ (hasKey_iff_mem m x).2 hx)

/-- The dict built by `buildMap` always has pairwise distinct keys. -/
lemma buildMap_nodup (l : List Entry) :
    ((buildMap l).map Prod.fst).Nodup := by
  have aux : ∀ (l : List Entry) (acc : SeedMap),
      (acc.map Prod.fst).Nodup →
      ((l.foldl (fun m e => dictInsert m e.1 e.2) acc).map Prod.fst).Nodup := by
    intro l
    induction l with
    | nil => intro acc h; exact h
    | cons e rest ih =>
      intro acc h
      exact ih _ (dictInsert_nodup acc e.1 e.2 h)
  exact aux l [] (by simp)

/-- Rebuilding the dict from an entry list with distinct keys gives the
list back unchanged. -/
lemma buildMap_self (m : List Entry) (h : (m.map Prod.fst).Nodup) :
    buildMap m = m := by
  have aux : ∀ (l acc : List Entry),
      ((acc ++ l).map Prod.fst).Nodup →
      l.foldl (fun m e => dictInsert m e.1 e.2) acc = acc ++ l := by
    intro l
    induction l with
    | nil => intro acc _; simp
    | cons e rest ih =>
      intro acc hnd
      have hkey : hasKey acc e.1 = false := by
        rw [List.map_append, List.nodup_append] at hnd
        cases hcase : hasKey acc e.1 with
        | false => rfl
        | true =>
          exfalso
          refine hnd.2.2 ((hasKey_iff_mem acc e.1).1 hcase) ?_
          rw [List.map_cons]
          exact List.mem_cons_self _ _
      have hins : dictInsert acc e.1 e.2 = acc ++ [e] := by
        unfold dictInsert
        rw [if_neg (by rw [hkey]; exact Bool.false_ne_true)]
      rw [List.foldl_cons, hins, ih (acc ++ [e]) (by simpa using hnd)]
      simp
  have := aux m [] (by simpa using h)
  simpa [buildMap] using this

/-- The merge loop preserves distinctness of the keys. -/
lemma mergeLoop_nodup (B : List Entry) (m : SeedMap) (n d : Nat)
    (h : (m.map Prod.fst).Nodup) :
    ((mergeLoop m n d B).1.map Prod.fst).Nodup := by
  induction B generalizing m n d with
  | nil => exact h
  | cons e rest ih =>
    by_cases he : hasKey m e.1 = true
    · simp only [mergeLoop, if_pos he]
      exact ih m n (d + 1) h
    · simp only [mergeLoop, if_neg he]
      refine ih _ (n + 1) d ?_
      rw [List.map_append, List.nodup_append]
      refine ⟨h, by simp, ?_⟩
      intro x hx hx1
      simp only [List.map_cons, List.map_nil, List.mem_singleton] at hx1
      exact he (hx1 ▸ (hasKey_iff_mem m x).2 hx)

/-- A row with fewer than 4 fields contributes nothing to the fold. -/
lemma csvRowStep_short (acc : List Entry) (row : List String)
    (h : row.length < 4) : csvRowStep acc row = acc := by
  match row with
  | [] => rfl
  | [_] => rfl
  | [_, _] => rfl
  | [_, _, _] => rfl
  | _ :: _ :: _ :: _ :: _ =>
    exfalso
    simp only [List.length_cons] at h
    omega

/-! ## Claim theorems -/

/-- C1: merge is first-write-wins.  For every existing database and
every clean batch (pairwise distinct seed codes), every key of the
existing map keeps its existing proposals, the new and duplicate
counters partition the batch by whether its seed code was already
present, and the merged keys are exactly the union of the two key
sets. -/
theorem merge_first_write_wins (existing batch : List Entry)
    (hB : (batch.map Prod.fst).Nodup) :
    (∀ k, hasKey (buildMap existing) k = true →
      lookupSeed k (merge_seeds existing batch).1 =
        lookupSeed k (buildMap existing)) ∧
    (merge_seeds existing batch).2.1 =
      (batch.filter (fun e => !(hasKey (buildMap existing) e.1))).length ∧
    (merge_seeds existing batch).2.2 =
      (batch.filter (fun e => hasKey (buildMap existing) e.1)).length ∧
    ((merge_seeds existing batch).1.map Prod.fst).toFinset =
      ((buildMap existing).map Prod.fst).toFinset ∪
        (batch.map Prod.fst).toFinset := by
  obtain ⟨h1, h2⟩ := mergeLoop_counts batch (buildMap existing) 0 0 hB
  refine ⟨?_, ?_, ?_, ?_⟩
  · intro k hk
    exact mergeLoop_lookup_existing batch (buildMap existing) 0 0 k hk
  · simpa using h1
  · simpa using h2
  · exact mergeLoop_keys batch (buildMap existing) 0 0

/-- Witness for `merge_first_write_wins` at a concrete database and
batch: the existing record for `"ABC12"` survives, the batch record is
counted as the one duplicate, and `"XYZ99"` is the one new key. -/
theorem merge_first_write_wins_witness :
    ((([("ABC12", ["x", "y", "z"]), ("XYZ99", ["p", "q", "r"])] :
        List Entry).map Prod.fst).Nodup) ∧
    lookupSeed "ABC12"
        (merge_seeds [("ABC12", ["a", "b", "c"])]
          [("ABC12", ["x", "y", "z"]), ("XYZ99", ["p", "q", "r"])]).1 =
      lookupSeed "ABC12" (buildMap [("ABC12", ["a", "b", "c"])]) ∧
    (merge_seeds [("ABC12", ["a", "b", "c"])]
        [("ABC12", ["x", "y", "z"]), ("XYZ99", ["p", "q", "r"])]).2.1 =
      (([("ABC12", ["x", "y", "z"]), ("XYZ99", ["p", "q", "r"])] :
          List Entry).filter
        (fun e => !(hasKey (buildMap [("ABC12", ["a", "b", "c"])]) e.1))).length := by
  have h := merge_first_write_wins [("ABC12", ["a", "b", "c"])]
    [("ABC12", ["x", "y", "z"]), ("XYZ99", ["p", "q", "r"])] (by decide)
  exact ⟨by decide, h.1 "ABC12" (by decide), h.2.1⟩

/-- C4: merge is idempotent.  Merging a batch a second time into the
map produced by the first merge adds nothing, counts every record of
the batch as a duplicate, and returns the map unchanged. -/
theorem merge_idempotent (existing B : List Entry) :
    merge_seeds (merge_seeds existing B).1 B =
      ((merge_seeds existing B).1, 0, B.length) := by
  have hnd : (((mergeLoop (buildMap existing) 0 0 B).1).map Prod.fst).Nodup :=
    mergeLoop_nodup B (buildMap existing) 0 0 (buildMap_nodup existing)
  show merge_seeds (mergeLoop (buildMap existing) 0 0 B).1 B = _
  unfold merge_seeds
  rw [buildMap_self _ hnd]
  have := mergeLoop_all_dup B (mergeLoop (buildMap existing) 0 0 B).1 0 0
    (mergeLoop_contains_batch B (buildMap existing) 0 0)
  simpa using this

/-- C2 counterexample: the claim says a record whose seed code is not
5 characters long is counted as invalid even when a proposal equals
"UNKNOWN"; on the code the sentinel check runs first, so the
4-character record below is counted unknown and not invalid. -/
theorem validator_format_first_counterexample :
    (clean_seeds [("AB1", ["UNKNOWN", "PADU", "Fusion Plant"])]).2.invalid = 0 ∧
    (clean_seeds [("AB1", ["UNKNOWN", "PADU", "Fusion Plant"])]).2.unknown = 1 := by
  decide

/-- C2 amended: the "UNKNOWN"-sentinel check runs before the
length/format check, so a record whose seed code is not exactly
5 characters is counted invalid exactly when no proposal field equals
"UNKNOWN"; when one does, the record is counted unknown instead.
Either way it is rejected.  Stated against the loop body at an
arbitrary loop state, hence for the record at any batch position. -/
theorem validator_sentinel_before_format (seen : List String)
    (clean : List Entry) (u i d : Nat) (e : Entry) (rest : List Entry)
    (hlen : e.1.length ≠ 5) :
    ("UNKNOWN" ∈ e.2 →
      cleanLoop seen clean u i d (e :: rest) =
        cleanLoop seen clean (u + 1) i d rest) ∧
    ("UNKNOWN" ∉ e.2 →
      cleanLoop seen clean u i d (e :: rest) =
        cleanLoop seen clean u (i + 1) d rest) := by
  constructor
  · intro h
    simp [cleanLoop, h]
  · intro h
    simp [cleanLoop, h, hlen]

/-- Witness for `validator_sentinel_before_format`: the 4-character
record with an "UNKNOWN" proposal is counted unknown, and the same
seed code with ordinary proposals is counted invalid. -/
theorem validator_sentinel_before_format_witness :
    ((("AB1", ["UNKNOWN", "PADU", "Fusion Plant"]) : Entry).1.length ≠ 5) ∧
    cleanLoop [] [] 0 0 0 [("AB1", ["UNKNOWN", "PADU", "Fusion Plant"])] =
      cleanLoop [] [] 1 0 0 [] ∧
    cleanLoop [] [] 0 0 0 [("AB1", ["PADU", "Poems DB", "Fusion Plant"])] =
      cleanLoop [] [] 0 1 0 [] := by
  refine ⟨by decide, ?_, ?_⟩
  · exact (validator_sentinel_before_format [] [] 0 0 0
      ("AB1", ["UNKNOWN", "PADU", "Fusion Plant"]) [] (by decide)).1 (by decide)
  · exact (validator_sentinel_before_format [] [] 0 0 0
      ("AB1", ["PADU", "Poems DB", "Fusion Plant"]) [] (by decide)).2 (by decide)

/-- C3: a record any of whose proposals equals "UNKNOWN" is counted
unknown regardless of the seed code (the sentinel check is the first
check of the loop body), and in particular the valid-coded record
`("ABCDE", ["UNKNOWN", "PADU", "Fusion Plant"])` is rejected as
unknown-data, not invalid. -/
theorem validator_unknown_sentinel (seen : List String) (clean : List Entry)
    (u i d : Nat) (e : Entry) (rest : List Entry)
    (h : "UNKNOWN" ∈ e.2) :
    cleanLoop seen clean u i d (e :: rest) =
      cleanLoop seen clean (u + 1) i d rest ∧
    clean_seeds [("ABCDE", ["UNKNOWN", "PADU", "Fusion Plant"])] =
      ([], ⟨1, 0, 0⟩) := by
  exact ⟨by simp [cleanLoop, h], by decide⟩

/-- Witness for `validator_unknown_sentinel` at the record of the
scenario. -/
theorem validator_unknown_sentinel_witness :
    ("UNKNOWN" ∈ (("ABCDE", ["UNKNOWN", "PADU", "Fusion Plant"]) : Entry).2) ∧
    (cleanLoop [] [] 0 0 0 [("ABCDE", ["UNKNOWN", "PADU", "Fusion Plant"])] =
        cleanLoop [] [] 1 0 0 [] ∧
      clean_seeds [("ABCDE", ["UNKNOWN", "PADU", "Fusion Plant"])] =
        ([], ⟨1, 0, 0⟩)) := by
  exact ⟨by decide, validator_unknown_sentinel [] [] 0 0 0
    ("ABCDE", ["UNKNOWN", "PADU", "Fusion Plant"]) [] (by decide)⟩

/-- C10: `read_csv` discards the first row whatever it contains, and a
later row with fewer than 4 fields is dropped without a trace: the
output and hence every statistic computed downstream by the validator
are the same as if the row were absent. -/
theorem read_csv_header_and_short_rows (r₁ r₂ hd : List String)
    (rest pre post : List (List String)) (row : List String)
    (hshort : row.length < 4) :
    read_csv (r₁ :: rest) = read_csv (r₂ :: rest) ∧
    read_csv (hd :: (pre ++ row :: post)) = read_csv (hd :: (pre ++ post)) ∧
    clean_seeds (read_csv (hd :: (pre ++ row :: post))) =
      clean_seeds (read_csv (hd :: (pre ++ post))) := by
  have h2 : read_csv (hd :: (pre ++ row :: post)) =
      read_csv (hd :: (pre ++ post)) := by
    show (pre ++ row :: post).foldl csvRowStep [] =
      (pre ++ post).foldl csvRowStep []
    rw [List.foldl_append, List.foldl_append, List.foldl_cons,
      csvRowStep_short _ _ hshort]
  exact ⟨rfl, h2, by rw [h2]⟩

/-- Witness for `read_csv_header_and_short_rows`: a data-looking header
is still discarded and a 2-field row is skipped silently. -/
theorem read_csv_header_and_short_rows_witness :
    ((["AB", "x"] : List String).length < 4) ∧
    (read_csv [["QWERT", "a", "b", "c"], ["ABC12", "a", "b", "c"]] =
        read_csv [["seed", "p1", "p2", "p3"], ["ABC12", "a", "b", "c"]] ∧
      read_csv [["h"], ["AB", "x"], ["XYZ12", "a", "b", "c"]] =
        read_csv [["h"], ["XYZ12", "a", "b", "c"]] ∧
      clean_seeds (read_csv [["h"], ["AB", "x"], ["XYZ12", "a", "b", "c"]]) =
        clean_seeds (read_csv [["h"], ["XYZ12", "a", "b", "c"]])) := by
  refine ⟨by decide, ?_⟩
  have h := read_csv_header_and_short_rows ["QWERT", "a", "b", "c"]
    ["seed", "p1", "p2", "p3"] ["h"] [["ABC12", "a", "b", "c"]] []
    [["XYZ12", "a", "b", "c"]] ["AB", "x"] (by decide)
  exact ⟨h.1, h.2.1, h.2.2⟩

/-- C5: coverage is order-independent (and recomputation on the same
map is trivially deterministic, the calculator being a pure function):
if `mp` arises from `m` by permuting the proposals inside records
(`mid`, related pointwise) and then permuting the records themselves,
the found-set, its cardinality and the coverage percentage are
unchanged. -/
theorem coverage_order_independent (m mid mp : SeedMap)
    (h1 : List.Forall₂ (fun a b => a.1 = b.1 ∧ List.Perm a.2 b.2) m mid)
    (h2 : List.Perm mid mp) :
    calculate_combinations m = calculate_combinations mp ∧
    unique_combinations_found m = unique_combinations_found mp ∧
    coverage_percent m = coverage_percent mp := by
  have hmap : m.map (fun e => e.2.toFinset) = mid.map (fun e => e.2.toFinset) := by
    clear h2
    induction h1 with
    | nil => rfl
    | cons hr _ ih =>
      simp only [List.map_cons, ih, List.toFinset_eq_of_perm _ _ hr.2]
  have hc : calculate_combinations m = calculate_combinations mp := by
    unfold calculate_combinations
    rw [hmap]
    exact List.toFinset_eq_of_perm _ _ (h2.map _)
  refine ⟨hc, ?_, ?_⟩
  · unfold unique_combinations_found
    rw [hc]
  · unfold coverage_percent unique_combinations_found
    rw [hc]

/-- Witness for `coverage_order_independent`: permuting proposals
inside each record and swapping the two records leaves the found-set,
its size and the coverage unchanged. -/
theorem coverage_order_independent_witness :
    (List.Forall₂ (fun (a b : Entry) => a.1 = b.1 ∧ List.Perm a.2 b.2)
      [("A", ["x", "y", "z"]), ("B", ["x", "y", "w"])]
      [("A", ["y", "x", "z"]), ("B", ["w", "x", "y"])]) ∧
    (List.Perm [("A", ["y", "x", "z"]), ("B", ["w", "x", "y"])]
      ([("B", ["w", "x", "y"]), ("A", ["y", "x", "z"])] : List Entry)) ∧
    (calculate_combinations [("A", ["x", "y", "z"]), ("B", ["x", "y", "w"])] =
        calculate_combinations [("B", ["w", "x", "y"]), ("A", ["y", "x", "z"])] ∧
      unique_combinations_found [("A", ["x", "y", "z"]), ("B", ["x", "y", "w"])] =
        unique_combinations_found [("B", ["w", "x", "y"]), ("A", ["y", "x", "z"])] ∧
      coverage_percent [("A", ["x", "y", "z"]), ("B", ["x", "y", "w"])] =
        coverage_percent [("B", ["w", "x", "y"]), ("A", ["y", "x", "z"])]) := by
  have hf : List.Forall₂ (fun (a b : Entry) => a.1 = b.1 ∧ List.Perm a.2 b.2)
      [("A", ["x", "y", "z"]), ("B", ["x", "y", "w"])]
      [("A", ["y", "x", "z"]), ("B", ["w", "x", "y"])] :=
    List.Forall₂.cons ⟨rfl, by decide⟩
      (List.Forall₂.cons ⟨rfl, by decide⟩ List.Forall₂.nil)
  have hp : List.Perm [("A", ["y", "x", "z"]), ("B", ["w", "x", "y"])]
      ([("B", ["w", "x", "y"]), ("A", ["y", "x", "z"])] : List Entry) := by
    decide
  exact ⟨hf, hp, coverage_order_independent _ _ _ hf hp⟩

/-- First-match lookup is invariant under permutation when the target
list has pairwise distinct keys. -/
lemma lookupSeed_perm (l₁ l₂ : SeedMap) (h : List.Perm l₁ l₂) (k : String) :
    (l₂.map Prod.fst).Nodup → lookupSeed k l₁ = lookupSeed k l₂ := by
  induction h with
  | nil => intro _; rfl
  | cons x p ih =>
    intro hnd
    rw [List.map_cons, List.nodup_cons] at hnd
    by_cases hx : (x.1 == k) = true
    · simp [lookupSeed, hx]
    · simp [lookupSeed, hx, ih hnd.2]
  | swap x y t =>
    intro hnd
    have hxy : x.1 ≠ y.1 := by
      rw [List.map_cons, List.map_cons, List.nodup_cons] at hnd
      intro hcontra
      exact hnd.1 (hcontra ▸ List.mem_cons_self _ _)
    by_cases hx : (x.1 == k) = true
    · by_cases hy : (y.1 == k) = true
      · exact absurd ((beq_iff_eq.1 hx).trans (beq_iff_eq.1 hy).symm) hxy
      · simp [lookupSeed, hx, hy]
    · simp [lookupSeed, hx]
  | trans p₁ p₂ ih₁ ih₂ =>
    intro hnd
    rw [ih₁ ((p₂.map Prod.fst).nodup_iff.2 hnd), ih₂ hnd]

/-- C6: round trip.  Saving a seed map with distinct keys and loading
it back yields a database whose seed list defines the identical map
(every key looks up to the same proposal list), and whose metadata
coverage fields are the values recomputed from the map at save time
(`save_merged_database` receives only the map, so nothing can be
copied from prior metadata). -/
theorem save_load_round_trip (m : SeedMap)
    (h : (m.map Prod.fst).Nodup) :
    (∀ k, lookupSeed k
        (load_merged_database (some (save_merged_database m))).seeds =
      lookupSeed k m) ∧
    (save_merged_database m).meta.total_seeds = m.length ∧
    (save_merged_database m).meta.combinations_found =
      (calculate_combinations m).card ∧
    (save_merged_database m).meta.coverage_percent =
      pyRound4 (coverage_percent m) := by
  refine ⟨?_, ?_, rfl, rfl⟩
  · intro k
    show lookupSeed k (sortEntries m) = lookupSeed k m
    exact lookupSeed_perm _ _ (List.perm_insertionSort _ m) k h
  · show (sortEntries m).length = m.length
    exact (List.perm_insertionSort _ m).length_eq

/-- Witness for `save_load_round_trip` on a concrete two-record map
whose entries start out of sorted order. -/
theorem save_load_round_trip_witness :
    ((([("ZZZ99", ["a", "b", "c"]), ("ABC12", ["d", "e", "f"])] :
        List Entry).map Prod.fst).Nodup) ∧
    lookupSeed "ZZZ99"
        (load_merged_database (some (save_merged_database
          [("ZZZ99", ["a", "b", "c"]), ("ABC12", ["d", "e", "f"])]))).seeds =
      lookupSeed "ZZZ99"
        [("ZZZ99", ["a", "b", "c"]), ("ABC12", ["d", "e", "f"])] ∧
    (save_merged_database
        [("ZZZ99", ["a", "b", "c"]), ("ABC12", ["d", "e", "f"])]).meta.total_seeds =
      ([("ZZZ99", ["a", "b", "c"]), ("ABC12", ["d", "e", "f"])] :
        List Entry).length := by
  have h := save_load_round_trip
    [("ZZZ99", ["a", "b", "c"]), ("ABC12", ["d", "e", "f"])] (by decide)
  exact ⟨by decide, h.1 "ZZZ99", h.2.1⟩

/-- C8: dry-run purity.  A dry run leaves the filesystem untouched,
performs no mutation events, and reports exactly what the mutating run
would report: all computation happens before the `dry_run` branch. -/
theorem dry_run_pure (ts : String) (fs : FS) :
    (run_pipeline true ts fs).1 = fs ∧
    (run_pipeline true ts fs).2.1 = [] ∧
    (run_pipeline true ts fs).2.2 = (run_pipeline false ts fs).2.2 := by
  cases hcsv : fs.seedLogCsv with
  | none => simp [run_pipeline, hcsv]
  | some rows =>
    by_cases h1 : (read_csv rows).length = 0
    · simp [run_pipeline, hcsv, h1]
    · by_cases h2 : (clean_seeds (read_csv rows)).1.length = 0
      · simp [run_pipeline, hcsv, h1, h2]
      · simp [run_pipeline, hcsv, h1, h2]

/-- C7: backup-before-overwrite.  In a mutating run that reaches the
write stage, if a merged database file exists its exact content is
written to a timestamped backup strictly before the merged database is
overwritten; if none exists, no backup event occurs and the run still
completes with a report. -/
theorem backup_before_overwrite (ts : String) (fs : FS) (rows : List (List String))
    (hcsv : fs.seedLogCsv = some rows)
    (hraw : (read_csv rows).length ≠ 0)
    (hclean : (clean_seeds (read_csv rows)).1.length ≠ 0) :
    (∀ db, fs.mergedJson = some db →
      ∃ i j, i < j ∧
        (run_pipeline false ts fs).2.1.get? i = some (Event.wroteBackup db) ∧
        ∃ nd, (run_pipeline false ts fs).2.1.get? j = some (Event.savedMerged nd)) ∧
    (fs.mergedJson = none →
      (∀ db, Event.wroteBackup db ∉ (run_pipeline false ts fs).2.1) ∧
      ∃ r, (run_pipeline false ts fs).2.2 = some r) := by
  constructor
  · intro db hdb
    refine ⟨1, 2, by omega, ?_, ?_⟩
    · simp [run_pipeline, hcsv, hraw, hclean, save_clean_json_fs,
        backup_merged_database_fs, hdb]
    · refine ⟨save_merged_database
        (merge_seeds (load_merged_database fs.mergedJson).seeds
          (clean_seeds (read_csv rows)).1).1, ?_⟩
      simp [run_pipeline, hcsv, hraw, hclean, save_clean_json_fs,
        backup_merged_database_fs, hdb]
  · intro hdb
    constructor
    · intro db
      simp [run_pipeline, hcsv, hraw, hclean, save_clean_json_fs,
        backup_merged_database_fs, hdb]
    · refine ⟨?_, ?_⟩
      case _ => exact
        { rawCount := (read_csv rows).length
          cleanCount := (clean_seeds (read_csv rows)).1.length
          removed := (clean_seeds (read_csv rows)).2
          newCount := (merge_seeds (load_merged_database fs.mergedJson).seeds
            (clean_seeds (read_csv rows)).1).2.1
          duplicateCount := (merge_seeds (load_merged_database fs.mergedJson).seeds
            (clean_seeds (read_csv rows)).1).2.2
          totalSeeds := (merge_seeds (load_merged_database fs.mergedJson).seeds
            (clean_seeds (read_csv rows)).1).1.length
          combinationsFound := (calculate_combinations
            (merge_seeds (load_merged_database fs.mergedJson).seeds
              (clean_seeds (read_csv rows)).1).1).card
          coveragePercent := 100 * ((calculate_combinations
            (merge_seeds (load_merged_database fs.mergedJson).seeds
              (clean_seeds (read_csv rows)).1).1).card : ℚ) / (TOTAL_COMBINATIONS : ℚ)
          missingCount := (get_missing_combinations (calculate_combinations
            (merge_seeds (load_merged_database fs.mergedJson).seeds
              (clean_seeds (read_csv rows)).1).1)).card }
      case _ =>
        simp [run_pipeline, hcsv, hraw, hclean]

/-- Witness for `backup_before_overwrite`: one valid harvested row, an
existing one-seed database; the backup of the old database content is
event 1 of the trace and the overwrite is event 2. -/
theorem backup_before_overwrite_witness :
    (({ seedLogCsv := some [["seed", "p1", "p2", "p3"], ["ABC12", "a", "b", "c"]],
        mergedJson := some { meta := ⟨1, 1, 455, 0⟩,
                             seeds := [("QWE12", ["d", "e", "f"])] },
        cleanSnapshots := [], backups := [], frontendData := none,
        archivedCsvs := [] } : FS).seedLogCsv =
      some [["seed", "p1", "p2", "p3"], ["ABC12", "a", "b", "c"]]) ∧
    (read_csv [["seed", "p1", "p2", "p3"], ["ABC12", "a", "b", "c"]]).length ≠ 0 ∧
    (clean_seeds (read_csv
      [["seed", "p1", "p2", "p3"], ["ABC12", "a", "b", "c"]])).1.length ≠ 0 ∧
    ∃ i j, i < j ∧
      (run_pipeline false "01-01-26-00-00-00"
        { seedLogCsv := some [["seed", "p1", "p2", "p3"], ["ABC12", "a", "b", "c"]],
          mergedJson := some { meta := ⟨1, 1, 455, 0⟩,
                               seeds := [("QWE12", ["d", "e", "f"])] },
          cleanSnapshots := [], backups := [], frontendData := none,
          archivedCsvs := [] }).2.1.get? i =
        some (Event.wroteBackup { meta := ⟨1, 1, 455, 0⟩,
                                  seeds := [("QWE12", ["d", "e", "f"])] }) ∧
      ∃ nd, (run_pipeline false "01-01-26-00-00-00"
        { seedLogCsv := some [["seed", "p1", "p2", "p3"], ["ABC12", "a", "b", "c"]],
          mergedJson := some { meta := ⟨1, 1, 455, 0⟩,
                               seeds := [("QWE12", ["d", "e", "f"])] },
          cleanSnapshots := [], backups := [], frontendData := none,
          archivedCsvs := [] }).2.1.get? j = some (Event.savedMerged nd) := by
  refine ⟨rfl, by decide, by decide, ?_⟩
  exact (backup_before_overwrite "01-01-26-00-00-00" _ _ rfl (by decide)
    (by decide)).1 _ rfl

/-- The proposal catalog lists 15 pairwise distinct names. -/
lemma AP_nodup : ALL_PROPOSALS.Nodup := by decide

/-- The enumerated universe of 3-combinations is the set of
3-element subsets of the catalog. -/
lemma all_possible_eq_powersetCard :
    all_possible_combinations = Finset.powersetCard 3 ALL_PROPOSALS.toFinset := by
  ext s
  simp only [all_possible_combinations, List.mem_toFinset, List.mem_map,
    Finset.mem_powersetCard]
  constructor
  · rintro ⟨l, hl, rfl⟩
    rw [List.mem_sublistsLen] at hl
    obtain ⟨hsub, hlen⟩ := hl
    constructor
    · intro x hx
      rw [List.mem_toFinset] at hx ⊢
      exact hsub.subset hx
    · have hnd : l.Nodup := AP_nodup.sublist hsub
      rw [List.toFinset_card_of_nodup hnd, hlen]
  · rintro ⟨hsub, hcard⟩
    have h1 : s.toList.Nodup := s.nodup_toList
    have h2 : s.toList ⊆ ALL_PROPOSALS := by
      intro x hx
      rw [Finset.mem_toList] at hx
      have hx2 := hsub hx
      rwa [List.mem_toFinset] at hx2
    obtain ⟨l, hlp, hlsub⟩ := h1.subperm h2
    refine ⟨l, ?_, ?_⟩
    · rw [List.mem_sublistsLen]
      exact ⟨hlsub, by rw [hlp.length_eq, Finset.length_toList, hcard]⟩
    · rw [List.toFinset_eq_of_perm _ _ hlp, Finset.toList_toFinset]

/-- The universe has exactly `C(15,3) = 455` members, matching the
hard-coded `TOTAL_COMBINATIONS`. -/
lemma all_possible_card : all_possible_combinations.card = 455 := by
  rw [all_possible_eq_powersetCard, Finset.card_powersetCard]
  have h15 : ALL_PROPOSALS.toFinset.card = 15 := by
    rw [List.toFinset_card_of_nodup AP_nodup]
    rfl
  rw [h15]
  decide

/-- Every member of the universe has exactly 3 proposals. -/
lemma all_possible_card3 (s : Finset String)
    (hs : s ∈ all_possible_combinations) : s.card = 3 := by
  rw [all_possible_eq_powersetCard, Finset.mem_powersetCard] at hs
  exact hs.2

/-- C9: a record whose 3 proposals repeat a name contributes a
frozenset with fewer than 3 elements.  It is counted in the found-set,
can never equal a universe combination, and removing it from the
found-set leaves the missing-set unchanged; consequently there is a
seed map whose `combinations_found` plus missing count exceeds 455 and
whose coverage percentage exceeds the true covered fraction of the
universe. -/
theorem degenerate_combination_inflates_coverage (m : SeedMap) (code : String)
    (ps : List String) (hmem : (code, ps) ∈ m) (hlen : ps.length = 3)
    (hnd : ¬ ps.Nodup) :
    ps.toFinset.card < 3 ∧
    ps.toFinset ∈ calculate_combinations m ∧
    ps.toFinset ∉ all_possible_combinations ∧
    get_missing_combinations (calculate_combinations m) =
      get_missing_combinations ((calculate_combinations m).erase ps.toFinset) ∧
    ∃ m0 : SeedMap,
      unique_combinations_found m0 +
          (get_missing_combinations (calculate_combinations m0)).card >
        TOTAL_COMBINATIONS ∧
      coverage_percent m0 >
        100 * (((calculate_combinations m0) ∩ all_possible_combinations).card : ℚ) /
          (TOTAL_COMBINATIONS : ℚ) := by
  have hca : ps.toFinset.card < 3 := by
    rcases Nat.lt_or_ge ps.toFinset.card 3 with h | h
    · exact h
    · exfalso
      have hle : ps.toFinset.card ≤ ps.length := by
        rw [List.card_toFinset]
        exact (List.dedup_sublist ps).length_le
      have heq : ps.toFinset.card = 3 := le_antisymm (hlen ▸ hle) h
      rw [List.card_toFinset] at heq
      have hdl : ps.dedup = ps :=
        (List.dedup_sublist ps).eq_of_length (by rw [heq, hlen])
      exact hnd (hdl ▸ ps.nodup_dedup)
  have hmem2 : ps.toFinset ∈ calculate_combinations m := by
    unfold calculate_combinations
    rw [List.mem_toFinset, List.mem_map]
    exact ⟨(code, ps), hmem, rfl⟩
  have hnotin : ps.toFinset ∉ all_possible_combinations := by
    intro hc
    rw [all_possible_card3 _ hc] at hca
    omega
  refine ⟨hca, hmem2, hnotin, ?_, ?_⟩
  · ext x
    simp only [get_missing_combinations, Finset.mem_sdiff, Finset.mem_erase]
    constructor
    · rintro ⟨hx, hnf⟩
      exact ⟨hx, fun hc => hnf hc.2⟩
    · rintro ⟨hx, hne⟩
      refine ⟨hx, fun hf => hne ⟨?_, hf⟩⟩
      intro heq
      exact hnotin (heq ▸ hx)
  · refine ⟨[("AAAAA", ["PADU", "PADU", "PADU"])], ?_, ?_⟩
    all_goals {
      have hfound : calculate_combinations [("AAAAA", ["PADU", "PADU", "PADU"])] =
          {({"PADU"} : Finset String)} := by decide
      have hdisj : Disjoint
          (calculate_combinations [("AAAAA", ["PADU", "PADU", "PADU"])])
          all_possible_combinations := by
        rw [hfound, Finset.disjoint_singleton_left]
        intro hc
        have h3 := all_possible_card3 _ hc
        exact absurd h3 (by decide)
      have hsd : all_possible_combinations \
          calculate_combinations [("AAAAA", ["PADU", "PADU", "PADU"])] =
          all_possible_combinations := by
        rw [Finset.sdiff_eq_self_iff_disjoint]
        exact hdisj.symm
      have huniq : unique_combinations_found [("AAAAA", ["PADU", "PADU", "PADU"])] = 1 := by
        unfold unique_combinations_found
        rw [hfound]
        exact Finset.card_singleton _
      have hinter : calculate_combinations [("AAAAA", ["PADU", "PADU", "PADU"])] ∩
          all_possible_combinations = ∅ := by
        rwa [← Finset.disjoint_iff_inter_eq_empty]
      first
      | (rw [get_missing_combinations, hsd, all_possible_card, huniq]
         decide)
      | (rw [coverage_percent, huniq, hinter]
         norm_num [TOTAL_COMBINATIONS])
    }

/-- Witness for `degenerate_combination_inflates_coverage` at a record
repeating "PADU". -/
theorem degenerate_combination_inflates_coverage_witness :
    ((("BBBBB", ["PADU", "PADU", "Fusion Plant"]) : Entry) ∈
      ([("BBBBB", ["PADU", "PADU", "Fusion Plant"])] : SeedMap)) ∧
    (["PADU", "PADU", "Fusion Plant"] : List String).length = 3 ∧
    ¬ (["PADU", "PADU", "Fusion Plant"] : List String).Nodup ∧
    ((["PADU", "PADU", "Fusion Plant"] : List String).toFinset.card < 3 ∧
      (["PADU", "PADU", "Fusion Plant"] : List String).toFinset ∈
        calculate_combinations [("BBBBB", ["PADU", "PADU", "Fusion Plant"])] ∧
      (["PADU", "PADU", "Fusion Plant"] : List String).toFinset ∉
        all_possible_combinations ∧
      get_missing_combinations (calculate_combinations
          [("BBBBB", ["PADU", "PADU", "Fusion Plant"])]) =
        get_missing_combinations ((calculate_combinations
            [("BBBBB", ["PADU", "PADU", "Fusion Plant"])]).erase
          (["PADU", "PADU", "Fusion Plant"] : List String).toFinset) ∧
      ∃ m0 : SeedMap,
        unique_combinations_found m0 +
            (get_missing_combinations (calculate_combinations m0)).card >
          TOTAL_COMBINATIONS ∧
        coverage_percent m0 >
          100 * (((calculate_combinations m0) ∩ all_possible_combinations).card : ℚ) /
            (TOTAL_COMBINATIONS : ℚ)) := by
  exact ⟨by decide, by decide, by decide,
    degenerate_combination_inflates_coverage
      [("BBBBB", ["PADU", "PADU", "Fusion Plant"])] "BBBBB"
      ["PADU", "PADU", "Fusion Plant"] (by decide) (by decide) (by decide)⟩
